import Mathlib

/-!
Verification of the TeleDisk (TD0) image analyser.

The development shallowly embeds the analyser's core: the header decoder
(`ImageHeader`, `CommentHeader`, `TeleDiskHeaders.from_stream`), the
track/sector walker (`analyse_track_and_sector_data`), the per-sector
decompressor (`decode_td0` with its three encoding methods), and the
heuristic directory-entry classifier (`isfat`, `iscpm`,
`analyse_raw_sector`).

Byte streams are `List Nat` (each element a byte value).  Rust code that
can panic (out-of-range slicing, failed `read_exact`, failed `assert!`,
`unwrap` on an invalid date, shift-amount overflow) is modelled with
`Option`/`Except`, `none` (or an error) standing for the panic/abort.
-/

namespace Teledisk

/-- Reads `n` bytes from the stream: `read_exact` into an `n`-byte buffer.
Returns the bytes read and the remaining stream, or `none` if the stream
is too short (a failed `read_exact`, which panics via `expect`). -/
def readBytes (n : Nat) (s : List Nat) : Option (List Nat × List Nat) :=
  if n ≤ s.length then some (s.take n, s.drop n) else none

/-- Little-endian 16-bit value from two bytes: `u16::from_le_bytes`. -/
def u16le (b0 b1 : Nat) : Nat := b0 + 256 * b1

/-- The two little-endian bytes of a 16-bit value: `u16::to_le_bytes`. -/
def u16ToLeBytes (v : Nat) : List Nat := [v % 256, v / 256 % 256]

/-- Contiguous slice `data[i..i+len]` of a byte list. -/
def listSlice (data : List Nat) (i len : Nat) : List Nat := (data.drop i).take len

/-! Image header (12 bytes). -/

structure ImageHeader where
  signature : List Nat
  sequence : Nat
  check_sequence : Nat
  version : Nat
  data_rate : Nat
  drive_type : Nat
  stepping : Nat
  dos_flag : Nat
  sides : Nat
  crc : Nat
deriving DecidableEq, Repr

/-- Model of `ImageHeader::from_bytes`: asserts the input is 12 bytes (modelled as
`none` on any other length) and extracts the fields. -/
def ImageHeader.from_bytes : List Nat → Option ImageHeader
  | [b0, b1, b2, b3, b4, b5, b6, b7, b8, b9, b10, b11] =>
      some { signature := [b0, b1], sequence := b2, check_sequence := b3, version := b4,
             data_rate := b5, drive_type := b6, stepping := b7, dos_flag := b8, sides := b9,
             crc := u16le b10 b11 }
  | _ => none

/-- Model of `ImageHeader::has_comment_header`: high bit of the stepping byte. -/
def ImageHeader.has_comment_header (h : ImageHeader) : Bool :=
  h.stepping.land 0x80 == 0x80

/-- Model of `ImageHeader::is_valid`: signature must be the ASCII pair `T`,`D`. -/
def ImageHeader.is_valid (h : ImageHeader) : Bool :=
  h.signature == [0x54, 0x44]

/-! Comment header (10 bytes). -/

structure CommentHeader where
  crc : Nat
  length : Nat
  year : Nat
  month : Nat
  day : Nat
  hour : Nat
  minute : Nat
  second : Nat
deriving DecidableEq, Repr

/-- Model of `CommentHeader::from_bytes`: asserts 10 bytes and extracts fields. -/
def CommentHeader.from_bytes : List Nat → Option CommentHeader
  | [b0, b1, b2, b3, b4, b5, b6, b7, b8, b9] =>
      some { crc := u16le b0 b1, length := u16le b2 b3, year := b4, month := b5,
             day := b6, hour := b7, minute := b8, second := b9 }
  | _ => none

structure TeleDiskHeaders where
  image_header : ImageHeader
  comment_header : Option CommentHeader
deriving DecidableEq, Repr

/-- Model of `TeleDiskHeaders::from_stream`: reads the 12-byte image header, then,
if the stepping byte's high bit is set, reads a further 10 bytes as the
comment header.  Returns the parsed headers and the remaining stream. -/
def TeleDiskHeaders.from_stream (s : List Nat) : Option (TeleDiskHeaders × List Nat) :=
  match readBytes 12 s with
  | none => none
  | some (hb, s1) =>
    match ImageHeader.from_bytes hb with
    | none => none
    | some ih =>
      if ih.has_comment_header then
        match readBytes 10 s1 with
        | none => none
        | some (cb, s2) =>
          match CommentHeader.from_bytes cb with
          | none => none
          | some ch => some (⟨ih, some ch⟩, s2)
      else some (⟨ih, none⟩, s1)

/-! Track and sector headers. -/

structure TrackHeader where
  number_of_sectors : Nat
  cylinder_number : Nat
  side_number : Nat
deriving DecidableEq, Repr

/-- Model of `TrackHeader::from_bytes`: asserts 4 bytes; the fourth byte (a CRC)
is ignored. -/
def TrackHeader.from_bytes : List Nat → Option TrackHeader
  | [b0, b1, b2, _] => some ⟨b0, b1, b2⟩
  | _ => none

structure SectorHeader where
  cylinder_number : Nat
  side_number : Nat
  sector_number : Nat
  sector_size : Nat
  flags : Nat
deriving DecidableEq, Repr

/-- Model of `SectorHeader::from_bytes`: asserts 6 bytes and computes
`sector_size = 128 << raw_sector_size` in `u16` arithmetic.  A shift
amount of 16 or more overflows the `u16` shift (a panic, modelled as
`none`); smaller shifts keep only the low 16 bits of the result. -/
def SectorHeader.from_bytes : List Nat → Option SectorHeader
  | [b0, b1, b2, b3, b4, _] =>
      if b3 < 16 then
        some { cylinder_number := b0, side_number := b1, sector_number := b2,
               sector_size := (128 <<< b3) % 65536, flags := b4 }
      else none
  | _ => none

/-! Sector decompressor (`decode_td0`). -/

/-- One pass of the method-2 (run-length) decoder, with explicit fuel.
Mirrors the `while input.len() > 1` loop: read bytes `a`, `b`; for
`a == 0` the next `b` bytes are a literal block copied once, otherwise a
block of `a * 2` bytes follows and is emitted `b` times; the cursor then
advances past the token and its block.  An out-of-range block slice is a
panic, modelled as `none`. -/
def decodeM2F : Nat → List Nat → Option (List Nat)
  | _, [] => some []
  | _, [_] => some []
  | 0, _ :: _ :: _ => none
  | f + 1, a :: b :: rest =>
      let count := if a = 0 then 1 else b
      let len := if a = 0 then b else a * 2
      if len ≤ rest.length then
        (decodeM2F f (rest.drop len)).map
          (fun tail => (List.replicate count (rest.take len)).flatten ++ tail)
      else none

/-- Method-2 decoding; each loop iteration consumes at least two input
bytes, so `input.length` is always enough fuel. -/
def decodeM2 (input : List Nat) : Option (List Nat) := decodeM2F input.length input

/-- One pass of the method-1 (repeated-pattern) decoder, with explicit
fuel.  Mirrors the loop: read a `u16` little-endian count and a `u16`
little-endian pattern, append the pattern's two little-endian bytes
`count` times, advance by four bytes.  Inputs of length 2 or 3 make the
pattern read out of range (a panic, modelled as `none`). -/
def decodeM1F : Nat → List Nat → Option (List Nat)
  | _, [] => some []
  | _, [_] => some []
  | 0, _ :: _ :: _ => none
  | f + 1, c0 :: c1 :: p0 :: p1 :: rest =>
      (decodeM1F f rest).map
        (fun tail => (List.replicate (u16le c0 c1) (u16ToLeBytes (u16le p0 p1))).flatten ++ tail)
  | _ + 1, _ :: _ :: _ => none

/-- Method-1 decoding with sufficient fuel. -/
def decodeM1 (input : List Nat) : Option (List Nat) := decodeM1F input.length input

inductive DecodeError where
  | lengthMismatch
  | truncated
  | unknownMethod
deriving DecidableEq, Repr

/-- Dispatch on the encoding-method selector: method 0 copies the input
verbatim, methods 1 and 2 run their decoding loops, anything else hits
the unknown-encoding-method panic arm (handled by `decode_td0`). -/
def decodeBody : Nat → List Nat → Option (List Nat)
  | 0, input => some input
  | 1, input => decodeM1 input
  | 2, input => decodeM2 input
  | _, _ => none

/-- Model of `decode_td0`: decode one sector payload under the selected method and
then `assert!(output.len() == sector_size)`.  The unknown-method panic
and the assertion failure are modelled as errors; the in-loop slice
panics of methods 1 and 2 surface as `truncated`. -/
def decode_td0 (encoding_method : Nat) (input : List Nat) (sector_size : Nat) :
    Except DecodeError (List Nat) :=
  if encoding_method > 2 then Except.error DecodeError.unknownMethod
  else
    match decodeBody encoding_method input with
    | none => Except.error DecodeError.truncated
    | some output =>
      if output.length = sector_size then Except.ok output
      else Except.error DecodeError.lengthMismatch

/-! Heuristic directory-entry classifier. -/

/-- Printable ASCII test `0x20..=0x7E`. -/
def isPrintable (b : Nat) : Bool := decide (0x20 ≤ b) && decide (b ≤ 0x7E)

/-- The `match` on `name_and_ext[0]` in `isfat`: special values
`0x00`, `0x05`, `0x2E`, `0xE5`, or any printable character. -/
def fatFirstByteOK (b : Nat) : Bool :=
  b == 0x00 || b == 0x05 || b == 0x2E || b == 0xE5 || isPrintable b

/-- The predicate part of `isfat`, in the source's check order: first
name byte acceptable, every byte of the 11-byte name+extension field
printable after masking to its low 7 bits, and at most two non-zero
bytes among `data[i+0x0C..i+0x16]`. -/
def isfatChecks (data : List Nat) (i : Nat) : Bool :=
  fatFirstByteOK (data.getD i 0) &&
  (listSlice data i 11).all (fun b => isPrintable (b.land 0x7F)) &&
  decide ((listSlice data (i + 0x0C) 10).foldl
    (fun acc b => if b ≠ 0 then acc + 1 else acc) 0 ≤ 2)

/-- Model of `isfat`: the FAT directory-entry recognizer.  The source slices
`data[i..i+0x20]` piecewise up front, so any slot with fewer than 32
bytes available panics (`none`); otherwise it answers whether the slot
passes the checks (`ControlFlow::Continue` = `true`). -/
def isfat (data : List Nat) (i : Nat) : Option Bool :=
  if i + 0x20 ≤ data.length then some (isfatChecks data i) else none

/-- The predicate part of `iscpm`, in the source's check order: status
byte in `{0x00, 0xE5, 0x80}`; the 11 name+extension bytes printable
after masking to their low 7 bits; the false-positive test (status
`0xE5` and every *masked* name character equal to `0xE5` — note the
source builds `name_and_ext` from `b & 0x7f` before this comparison);
and `S1 = 0`, `S2 = 0`, `RC ≤ 128`. -/
def iscpmChecks (data : List Nat) (i : Nat) : Bool :=
  (data.getD i 0 == 0x00 || data.getD i 0 == 0xE5 || data.getD i 0 == 0x80) &&
  (listSlice data (i + 1) 11).all (fun b => isPrintable (b.land 0x7F)) &&
  !(data.getD i 0 == 0xE5 &&
    ((listSlice data (i + 1) 11).map (fun b => b.land 0x7F)).all (fun b => b == 0xE5)) &&
  (data.getD (i + 13) 0 == 0 && data.getD (i + 14) 0 == 0 &&
    decide (data.getD (i + 15) 0 ≤ 128))

/-- Model of `iscpm`: the CP/M directory-entry recognizer.  The source slices up
to `data[i+32]` up front (the allocation map), so an incomplete slot
panics (`none`). -/
def iscpm (data : List Nat) (i : Nat) : Option Bool :=
  if i + 32 ≤ data.length then some (iscpmChecks data i) else none

/-- One reported record of `analyse_raw_sector`: the structured FAT line,
the structured CP/M line, or the hex/ASCII dump of an unclassified slot
(carrying the raw bytes and whether any recognizer matched). -/
inductive SlotEvent where
  | fatEntry : Nat → SlotEvent
  | cpmEntry : Nat → SlotEvent
  | unclassified : Nat → List Nat → Bool → SlotEvent
deriving DecidableEq, Repr

/-- The records emitted for the slot starting at byte `i`: the FAT line
when `isfat` matches, the CP/M line when `iscpm` matches, and the
hex/ASCII dump of `data[i..i+32]` when the match count `clocked` is not
exactly one.  `none` propagates a recognizer panic on a short slot. -/
def slotEvents (data : List Nat) (i : Nat) : Option (List SlotEvent) :=
  match isfat data i with
  | none => none
  | some f =>
    match iscpm data i with
    | none => none
    | some c =>
      let clocked := (if f then 1 else 0) + (if c then 1 else 0)
      some ((if f then [SlotEvent.fatEntry i] else []) ++
            (if c then [SlotEvent.cpmEntry i] else []) ++
            (if clocked ≠ 1 then
               [SlotEvent.unclassified i (listSlice data i 32) (decide (clocked ≠ 0))]
             else []))

/-- Sequences a list of `Option` computations, failing on the first
`none` (a panic inside any loop iteration aborts the whole pass). -/
def mapMo {α β : Type} (f : α → Option β) : List α → Option (List β)
  | [] => some []
  | a :: l =>
    match f a with
    | none => none
    | some b => (mapMo f l).map (fun bs => b :: bs)

/-- Model of `analyse_raw_sector`: steps through the decoded sector at offsets
`0, 32, 64, ...` (`(0..data.len()).step_by(32)`) and collects the
records each slot emits. -/
def analyse_raw_sector (data : List Nat) : Option (List SlotEvent) :=
  (mapMo (fun k => slotEvents data (32 * k))
    (List.range ((data.length + 31) / 32))).map List.flatten

/-! Track/sector walker. -/

/-- Reads one sector record: the 6-byte sector header, the `u16`
little-endian payload length, and the payload itself; then decodes the
payload (`decode_td0` on `datablock[0]` and the remaining bytes — an
empty payload panics indexing `datablock[0]`) and classifies the decoded
sector.  Any panic along the way is `none`. -/
def readSector (s : List Nat) : Option ((SectorHeader × List Nat) × List Nat) :=
  match readBytes 6 s with
  | none => none
  | some (sect, s1) =>
    match SectorHeader.from_bytes sect with
    | none => none
    | some sh =>
      match readBytes 2 s1 with
      | none => none
      | some (dl, s2) =>
        match readBytes (u16le (dl.getD 0 0) (dl.getD 1 0)) s2 with
        | none => none
        | some (db, s3) =>
          match db with
          | [] => none
          | m :: payload =>
            match decode_td0 m payload sh.sector_size with
            | Except.error _ => none
            | Except.ok decoded =>
              match analyse_raw_sector decoded with
              | none => none
              | some _ => some ((sh, db), s3)

/-- Reads `n` consecutive sector records (the inner
`for s in 0..th.number_of_sectors` loop). -/
def readSectors : Nat → List Nat → Option (List (SectorHeader × List Nat) × List Nat)
  | 0, s => some ([], s)
  | n + 1, s =>
    match readSector s with
    | none => none
    | some (r, s1) =>
      match readSectors n s1 with
      | none => none
      | some (rs, s2) => some (r :: rs, s2)

/-- The walker loop with explicit fuel: read a 4-byte track header; a
sector count of 255 terminates the walk, otherwise read that many sector
records and continue with the next track header.  Returns the per-track
records and the stream remaining after the sentinel. -/
def walkFuel : Nat → List Nat →
    Option (List (TrackHeader × List (SectorHeader × List Nat)) × List Nat)
  | 0, _ => none
  | f + 1, s =>
    match readBytes 4 s with
    | none => none
    | some (tb, s1) =>
      match TrackHeader.from_bytes tb with
      | none => none
      | some th =>
        if th.number_of_sectors = 255 then some ([], s1)
        else
          match readSectors th.number_of_sectors s1 with
          | none => none
          | some (secs, s2) =>
            match walkFuel f s2 with
            | none => none
            | some (ts, rest) => some ((th, secs) :: ts, rest)

/-- Model of `analyse_track_and_sector_data`: the walker entered with enough fuel
(every iteration consumes at least the 4 track-header bytes). -/
def analyse_track_and_sector_data (s : List Nat) :
    Option (List (TrackHeader × List (SectorHeader × List Nat)) × List Nat) :=
  walkFuel (s.length + 1) s

/-! Top-level per-stream analysis. -/

/-- Modelled from the chrono library: leap-year rule used by
`NaiveDate::from_ymd_opt`. -/
def isLeapYear (y : Nat) : Bool :=
  (decide (y % 4 = 0) && decide (y % 100 ≠ 0)) || decide (y % 400 = 0)

/-- Modelled from the chrono library: days in a month. -/
def daysInMonth (y m : Nat) : Nat :=
  if m = 2 then (if isLeapYear y then 29 else 28)
  else if m = 4 ∨ m = 6 ∨ m = 9 ∨ m = 11 then 30 else 31

/-- Modelled from the chrono library: `NaiveDate::from_ymd_opt` succeeds
iff the month is 1–12 and the day fits the month. -/
def dateValid (y m d : Nat) : Bool :=
  decide (1 ≤ m) && decide (m ≤ 12) && decide (1 ≤ d) && decide (d ≤ daysInMonth y m)

/-- Modelled from the chrono library: `NaiveTime::from_hms_opt`. -/
def timeValid (h mi s : Nat) : Bool :=
  decide (h < 24) && decide (mi < 60) && decide (s < 60)

/-- Model of `analyze_teledisk_image_format_from_stream`: parse the headers; if
the signature is not `TD` the stream is abandoned (`some (false, rest)`
with `rest` the stream after all consumed header bytes).  Otherwise the
comment's date and time are validated (`unwrap` panics on failure), the
comment text is read, and the track/sector walker runs; `some (true,
rest)` reports the stream remaining after the sentinel. -/
def analyze_teledisk_image_format_from_stream (s : List Nat) : Option (Bool × List Nat) :=
  match TeleDiskHeaders.from_stream s with
  | none => none
  | some (hdrs, s1) =>
    if hdrs.image_header.is_valid then
      match hdrs.comment_header with
      | some ch =>
        if dateValid (ch.year + 1900) (ch.month + 1) ch.day &&
           timeValid ch.hour ch.minute ch.second then
          match readBytes ch.length s1 with
          | none => none
          | some (_, s2) =>
            match analyse_track_and_sector_data s2 with
            | none => none
            | some (_, rest) => some (true, rest)
        else none
      | none =>
        match analyse_track_and_sector_data s1 with
        | none => none
        | some (_, rest) => some (true, rest)
    else some (false, s1)

/-- The FAT acceptance conditions as the specification words them, over a
32-byte slot: the first byte of the 11-byte name+extension field is one
of `{0x00, 0x05, 0x2E, 0xE5}` or printable ASCII; every byte of the full
11-byte field, masked to its low 7 bits, is printable ASCII; and the
reserved bytes at slot offsets `0x0C` up to `0x16` contain at most two
non-zero bytes. -/
def FatSpecAccepts (slot : List Nat) : Prop :=
  (slot.getD 0 0 = 0x00 ∨ slot.getD 0 0 = 0x05 ∨ slot.getD 0 0 = 0x2E ∨ slot.getD 0 0 = 0xE5 ∨
     (0x20 ≤ slot.getD 0 0 ∧ slot.getD 0 0 ≤ 0x7E)) ∧
  (∀ j, j < 11 → 0x20 ≤ (slot.getD j 0).land 0x7F ∧ (slot.getD j 0).land 0x7F ≤ 0x7E) ∧
  (listSlice slot 0x0C 10).countP (fun b => b != 0) ≤ 2

instance (slot : List Nat) : Decidable (FatSpecAccepts slot) := by
  unfold FatSpecAccepts
  infer_instance

/-! General lemmas. -/

theorem readBytes_some {n : Nat} {s t r : List Nat} (h : readBytes n s = some (t, r)) :
    t = s.take n ∧ r = s.drop n ∧ n ≤ s.length := by
  unfold readBytes at h
  split at h
  · cases h; exact ⟨rfl, rfl, by assumption⟩
  · cases h

theorem decodeM2F_fuel :
    ∀ f g : Nat, ∀ s : List Nat, s.length ≤ f → s.length ≤ g → decodeM2F f s = decodeM2F g s := by
  intro f
  induction f with
  | zero =>
    intro g s hf _
    have : s = [] := List.eq_nil_of_length_eq_zero (Nat.le_zero.mp hf)
    subst this
    cases g <;> rfl
  | succ f ih =>
    intro g s hf hg
    match s with
    | [] => cases g <;> rfl
    | [x] => cases g <;> rfl
    | a :: b :: rest =>
      simp only [List.length_cons] at hf hg
      match g with
      | g' + 1 =>
        have hrec : ∀ len : Nat, decodeM2F f (rest.drop len) = decodeM2F g' (rest.drop len) := by
          intro len
          exact ih g' _ (by simp; omega) (by simp; omega)
        simp only [decodeM2F, hrec]

theorem decodeM1F_fuel :
    ∀ f g : Nat, ∀ s : List Nat, s.length ≤ f → s.length ≤ g → decodeM1F f s = decodeM1F g s := by
  intro f
  induction f with
  | zero =>
    intro g s hf _
    have : s = [] := List.eq_nil_of_length_eq_zero (Nat.le_zero.mp hf)
    subst this
    cases g <;> rfl
  | succ f ih =>
    intro g s hf hg
    match s with
    | [] => cases g <;> rfl
    | [x] => cases g <;> rfl
    | a :: b :: rest =>
      simp only [List.length_cons] at hf hg
      match g with
      | g' + 1 =>
        match rest with
        | [] => rfl
        | [p] => rfl
        | p0 :: p1 :: rest2 =>
          simp only [decodeM1F]
          simp only [List.length_cons] at hf hg
          rw [ih g' rest2 (by omega) (by omega)]

theorem decodeM2_nil : decodeM2 [] = some [] := rfl

theorem decodeM2_step_lit (b : Nat) (rest : List Nat) (h : b ≤ rest.length) :
    decodeM2 (0 :: b :: rest) =
      (decodeM2 (rest.drop b)).map (fun tail => rest.take b ++ tail) := by
  show decodeM2F (rest.length + 1 + 1) (0 :: b :: rest) = _
  simp only [decodeM2F, eq_self_iff_true, if_true, h]
  rw [decodeM2F_fuel (rest.length + 1) (rest.drop b).length (rest.drop b) (by simp; omega)
    (Nat.le_refl _)]
  simp [decodeM2]

theorem decodeM2_step_rep (a b : Nat) (rest : List Nat) (ha : a ≠ 0) (h : a * 2 ≤ rest.length) :
    decodeM2 (a :: b :: rest) =
      (decodeM2 (rest.drop (a * 2))).map
        (fun tail => (List.replicate b (rest.take (a * 2))).flatten ++ tail) := by
  show decodeM2F (rest.length + 1 + 1) (a :: b :: rest) = _
  simp only [decodeM2F, ha, if_false, h, if_true]
  rw [decodeM2F_fuel (rest.length + 1) (rest.drop (a * 2)).length (rest.drop (a * 2))
    (by simp; omega) (Nat.le_refl _)]
  simp [decodeM2]

theorem decodeM1_step (c0 c1 p0 p1 : Nat) (rest : List Nat) :
    decodeM1 (c0 :: c1 :: p0 :: p1 :: rest) =
      (decodeM1 rest).map
        (fun tail =>
          (List.replicate (u16le c0 c1) (u16ToLeBytes (u16le p0 p1))).flatten ++ tail) := by
  show decodeM1F (rest.length + 1 + 1 + 1 + 1) (c0 :: c1 :: p0 :: p1 :: rest) = _
  simp only [decodeM1F]
  rw [decodeM1F_fuel (rest.length + 1 + 1 + 1) rest.length rest (by omega) (Nat.le_refl _)]
  rfl

theorem flatten_replicate_length (n : Nat) (l : List Nat) :
    (List.replicate n l).flatten.length = n * l.length := by
  induction n with
  | zero => simp
  | succ n ih => simp [List.replicate_succ, ih, Nat.succ_mul]; omega

/-! Claim theorems. -/

/-- C3: for every encoding method, compressed payload and declared
sector size, `decode_td0` returns raw bytes only when their count is
exactly `sector_size`, and whenever the method's decoding loop yields a
byte count different from `sector_size` the result is the
`LengthMismatch` error — the output is never truncated or padded to
fit. -/
theorem decode_td0_length_exact (m : Nat) (input : List Nat) (sector_size : Nat) :
    (∀ out, decode_td0 m input sector_size = Except.ok out → out.length = sector_size) ∧
    (∀ out, decodeBody m input = some out → out.length ≠ sector_size →
        decode_td0 m input sector_size = Except.error DecodeError.lengthMismatch) := by
  constructor
  · intro out h
    unfold decode_td0 at h
    split at h
    · cases h
    · split at h
      · cases h
      · split at h
        · cases h; assumption
        · cases h
  · intro out hbody hne
    unfold decode_td0
    have hm : ¬ m > 2 := by
      intro hgt
      have : decodeBody m input = none := by
        unfold decodeBody
        match m, hgt with
        | n + 3, _ => rfl
      rw [this] at hbody; cases hbody
    rw [if_neg hm, hbody]
    show (if out.length = sector_size then Except.ok out
          else Except.error DecodeError.lengthMismatch) = Except.error DecodeError.lengthMismatch
    exact if_neg hne

/-- C3 witness: method 0 with a 2-byte payload against a declared size
of 3 raises `LengthMismatch`; with a declared size of 2 it returns the
2 bytes unchanged. -/
theorem decode_td0_length_exact_witness :
    decode_td0 0 [5, 6] 3 = Except.error DecodeError.lengthMismatch ∧
    ∀ out, decode_td0 0 [5, 6] 2 = Except.ok out → out.length = 2 :=
  ⟨(decode_td0_length_exact 0 [5, 6] 3).2 [5, 6] rfl (by decide),
   (decode_td0_length_exact 0 [5, 6] 2).1⟩

/-- C4: the method-2 decoder, at any token position with at least two
bytes left, reads `a` and `b`; when `a = 0` it copies the next `b` input
bytes once and continues after them (cursor advance `2 + b`), when
`a ≠ 0` it emits the following `a * 2`-byte block exactly `b` times and
continues after the block (cursor advance `2 + a * 2`); with fewer than
two bytes left it stops. -/
theorem decodeM2_token_semantics :
    (∀ b : Nat, ∀ rest : List Nat, b ≤ rest.length →
       decodeM2 (0 :: b :: rest) =
         (decodeM2 (rest.drop b)).map (fun tail => rest.take b ++ tail)) ∧
    (∀ a b : Nat, ∀ rest : List Nat, a ≠ 0 → a * 2 ≤ rest.length →
       decodeM2 (a :: b :: rest) =
         (decodeM2 (rest.drop (a * 2))).map
           (fun tail => (List.replicate b (rest.take (a * 2))).flatten ++ tail)) ∧
    (∀ s : List Nat, s.length < 2 → decodeM2 s = some []) := by
  refine ⟨decodeM2_step_lit, decodeM2_step_rep, ?_⟩
  intro s hs
  match s, hs with
  | [], _ => rfl
  | [x], _ => rfl

/-- C4 witness: a literal token `00 02 AA BB`, a repeat token
`01 03 11 22`, and a 1-byte leftover. -/
theorem decodeM2_token_semantics_witness :
    decodeM2 [0, 2, 0xAA, 0xBB] =
      (decodeM2 (([0xAA, 0xBB] : List Nat).drop 2)).map
        (fun tail => ([0xAA, 0xBB] : List Nat).take 2 ++ tail) ∧
    decodeM2 [1, 3, 0x11, 0x22] =
      (decodeM2 (([0x11, 0x22] : List Nat).drop (1 * 2))).map
        (fun tail => (List.replicate 3 (([0x11, 0x22] : List Nat).take (1 * 2))).flatten ++ tail) ∧
    decodeM2 [9] = some [] :=
  ⟨decodeM2_token_semantics.1 2 [0xAA, 0xBB] (by decide),
   decodeM2_token_semantics.2.1 1 3 [0x11, 0x22] (by decide) (by decide),
   decodeM2_token_semantics.2.2 [9] (by decide)⟩

/-- C5: the method-1 decoder repeatedly reads a `u16` little-endian
count and a `u16` little-endian pattern and appends the pattern's two
bytes `count` times, stopping when fewer than two input bytes remain; a
single-token payload decodes to the pattern repeated `count` times, of
length `count * 2`. -/
theorem decodeM1_token_semantics :
    (∀ c0 c1 p0 p1 : Nat, ∀ rest : List Nat,
       decodeM1 (c0 :: c1 :: p0 :: p1 :: rest) =
         (decodeM1 rest).map
           (fun tail =>
             (List.replicate (u16le c0 c1) (u16ToLeBytes (u16le p0 p1))).flatten ++ tail)) ∧
    (∀ s : List Nat, s.length < 2 → decodeM1 s = some []) ∧
    (∀ c0 c1 p0 p1 : Nat, p0 < 256 → p1 < 256 →
       decodeM1 [c0, c1, p0, p1] = some ((List.replicate (u16le c0 c1) [p0, p1]).flatten) ∧
       ((List.replicate (u16le c0 c1) [p0, p1]).flatten).length = u16le c0 c1 * 2) := by
  refine ⟨decodeM1_step, ?_, ?_⟩
  · intro s hs
    match s, hs with
    | [], _ => rfl
    | [x], _ => rfl
  · intro c0 c1 p0 p1 hp0 hp1
    have hle : u16ToLeBytes (u16le p0 p1) = [p0, p1] := by
      unfold u16ToLeBytes u16le
      congr 1
      · omega
      · congr 1
        rw [Nat.add_mul_div_left _ _ (by norm_num : (0 : Nat) < 256)]
        omega
    constructor
    · rw [decodeM1_step, hle, show decodeM1 [] = some [] from rfl]
      simp
    · rw [flatten_replicate_length]
      rfl

/-- C5 witness: the single token `02 00 AB CD` decodes to the 2-byte
pattern repeated twice, 4 bytes in all. -/
theorem decodeM1_token_semantics_witness :
    decodeM1 [2, 0, 0xAB, 0xCD] = some ((List.replicate (u16le 2 0) [0xAB, 0xCD]).flatten) ∧
    ((List.replicate (u16le 2 0) [0xAB, 0xCD]).flatten).length = u16le 2 0 * 2 :=
  decodeM1_token_semantics.2.2 2 0 0xAB 0xCD (by decide) (by decide)

theorem mapMo_isSome {α β : Type} (f : α → Option β) (l : List α) :
    (mapMo f l).isSome = true ↔ ∀ a ∈ l, (f a).isSome = true := by
  induction l with
  | nil => simp [mapMo]
  | cons a l ih =>
    cases hf : f a with
    | none => simp [mapMo, hf]
    | some b => simp [mapMo, hf, ih]

theorem slotEvents_isSome (data : List Nat) (i : Nat) :
    (slotEvents data i).isSome = true ↔ i + 32 ≤ data.length := by
  by_cases h : i + 32 ≤ data.length
  · simp [slotEvents, isfat, iscpm, h]
  · simp [slotEvents, isfat, iscpm, h]

theorem foldl_count (l : List Nat) (n : Nat) :
    l.foldl (fun acc b => if b ≠ 0 then acc + 1 else acc) n = n + l.countP (fun b => b != 0) := by
  induction l generalizing n with
  | nil => simp
  | cons a l ih =>
    rw [List.foldl_cons, List.countP_cons, ih]
    by_cases ha : a = 0
    · simp [ha]
    · simp only [ha, ne_eq, not_false_eq_true, if_true, bne_iff_ne, if_pos]
      omega

theorem all_take_iff (l : List Nat) (n : Nat) (p : Nat → Bool) (h : n ≤ l.length) :
    ((l.take n).all p = true) ↔ ∀ j, j < n → p (l.getD j 0) = true := by
  induction n generalizing l with
  | zero => simp
  | succ n ih =>
    cases l with
    | nil => simp at h
    | cons a t =>
      simp only [List.take_succ_cons, List.all_cons, Bool.and_eq_true]
      rw [ih t (by simpa using h)]
      constructor
      · rintro ⟨hpa, hrest⟩ j hj
        cases j with
        | zero => simpa using hpa
        | succ j => simpa using hrest j (by omega)
      · intro hall
        exact ⟨by simpa using hall 0 (by omega),
               fun j hj => by simpa using hall (j + 1) (by omega)⟩

/-- C1: for a complete 32-byte slot, the classifier emits a single
classified record (the FAT line or the CP/M line alone) exactly when
exactly one of the two recognizers accepts the slot; the `fatEntry`
(resp. `cpmEntry`) record alone when only `isfat` (resp. only `iscpm`)
accepts; and when neither or both accept, an `unclassified` record
carrying the slot's raw 32 bytes is emitted. -/
theorem slot_reported_classified_iff (data : List Nat) (i : Nat) (h : i + 32 ≤ data.length) :
    (slotEvents data i).isSome = true ∧
    ∀ es, slotEvents data i = some es →
      (((es = [SlotEvent.fatEntry i] ∨ es = [SlotEvent.cpmEntry i]) ↔
          isfatChecks data i ≠ iscpmChecks data i) ∧
       (isfatChecks data i = true → iscpmChecks data i = false → es = [SlotEvent.fatEntry i]) ∧
       (isfatChecks data i = false → iscpmChecks data i = true → es = [SlotEvent.cpmEntry i]) ∧
       (isfatChecks data i = iscpmChecks data i →
          SlotEvent.unclassified i (listSlice data i 32)
            (isfatChecks data i || iscpmChecks data i) ∈ es)) := by
  constructor
  · rw [slotEvents_isSome]; exact h
  · intro es hes
    have hf : isfat data i = some (isfatChecks data i) := by simp [isfat, h]
    have hc : iscpm data i = some (iscpmChecks data i) := by simp [iscpm, h]
    simp only [slotEvents, hf, hc] at hes
    cases hfb : isfatChecks data i <;> cases hcb : iscpmChecks data i <;>
      rw [hfb, hcb] at hes <;> simp at hes <;> subst hes <;> simp

/-- C1 witness: the all-zero 32-byte sector, where neither recognizer
accepts the slot and the `unclassified` record is emitted. -/
theorem slot_reported_classified_iff_witness :
    0 + 32 ≤ (List.replicate 32 0 : List Nat).length ∧
    ((slotEvents (List.replicate 32 0) 0).isSome = true ∧
     ∀ es, slotEvents (List.replicate 32 0) 0 = some es →
       (((es = [SlotEvent.fatEntry 0] ∨ es = [SlotEvent.cpmEntry 0]) ↔
           isfatChecks (List.replicate 32 0) 0 ≠ iscpmChecks (List.replicate 32 0) 0) ∧
        (isfatChecks (List.replicate 32 0) 0 = true →
           iscpmChecks (List.replicate 32 0) 0 = false → es = [SlotEvent.fatEntry 0]) ∧
        (isfatChecks (List.replicate 32 0) 0 = false →
           iscpmChecks (List.replicate 32 0) 0 = true → es = [SlotEvent.cpmEntry 0]) ∧
        (isfatChecks (List.replicate 32 0) 0 = iscpmChecks (List.replicate 32 0) 0 →
           SlotEvent.unclassified 0 (listSlice (List.replicate 32 0) 0 32)
             (isfatChecks (List.replicate 32 0) 0 || iscpmChecks (List.replicate 32 0) 0)
             ∈ es))) :=
  ⟨by decide, slot_reported_classified_iff (List.replicate 32 0) 0 (by decide)⟩

/-- C2 (code bug): a 32-byte slot whose status byte and all eleven
name/extension bytes are `0xE5` (with `S1 = S2 = RC = 0`) is accepted by
the CP/M recognizer.  The source's false-positive test compares the
name characters already masked with `0x7F` against `0xE5`, which no
masked byte can equal, so the rejection the code's own comment describes
never happens. -/
theorem iscpm_all_e5_slot_accepted :
    iscpm (List.replicate 12 0xE5 ++ List.replicate 20 0) 0 = some true := by decide

/-- C6: a 32-byte slot is accepted by the FAT recognizer exactly when
the first byte of the name+extension field is one of
`{0x00, 0x05, 0x2E, 0xE5}` or printable ASCII, every byte of the
11-byte field masked to its low 7 bits is printable ASCII, and the
reserved bytes at slot offsets `0x0C` up to `0x16` hold at most two
non-zero bytes. -/
theorem isfat_iff_fatSpec (slot : List Nat) (h : slot.length = 32) :
    isfat slot 0 = some true ↔ FatSpecAccepts slot := by
  have hg : (0 : Nat) + 32 ≤ slot.length := by omega
  have hs : isfat slot 0 = some (isfatChecks slot 0) := by simp [isfat, hg]
  rw [hs, Option.some_inj]
  unfold isfatChecks FatSpecAccepts
  rw [Bool.and_eq_true, Bool.and_eq_true, and_assoc]
  have e1 : (fatFirstByteOK (slot.getD 0 0) = true) ↔
      (slot.getD 0 0 = 0x00 ∨ slot.getD 0 0 = 0x05 ∨ slot.getD 0 0 = 0x2E ∨
       slot.getD 0 0 = 0xE5 ∨ (0x20 ≤ slot.getD 0 0 ∧ slot.getD 0 0 ≤ 0x7E)) := by
    simp [fatFirstByteOK, isPrintable, or_assoc]
  have e2 : ((listSlice slot 0 11).all (fun b => isPrintable (b.land 0x7F)) = true) ↔
      (∀ j, j < 11 → 0x20 ≤ (slot.getD j 0).land 0x7F ∧ (slot.getD j 0).land 0x7F ≤ 0x7E) := by
    unfold listSlice
    rw [List.drop_zero, all_take_iff slot 11 _ (by omega)]
    constructor
    · intro hp j hj
      simpa [isPrintable] using hp j hj
    · intro hp j hj
      simpa [isPrintable] using hp j hj
  have e3 : (decide ((listSlice slot (0 + 0x0C) 10).foldl
      (fun acc b => if b ≠ 0 then acc + 1 else acc) 0 ≤ 2) = true) ↔
      ((listSlice slot 0x0C 10).countP (fun b => b != 0) ≤ 2) := by
    rw [decide_eq_true_eq, foldl_count]
    simp
  exact and_congr (by simpa using e1) (and_congr (by simpa using e2) (by simpa using e3))

/-- C6 witness: the all-zero slot — the recognizer rejects it (the name
bytes are unprintable) and the specification predicate fails too. -/
theorem isfat_iff_fatSpec_witness :
    (List.replicate 32 0 : List Nat).length = 32 ∧
    (isfat (List.replicate 32 0) 0 = some true ↔ FatSpecAccepts (List.replicate 32 0)) :=
  ⟨by decide, isfat_iff_fatSpec (List.replicate 32 0) (by decide)⟩

/-- C8 counterexample: a sector header with size-exponent 9 stores
`sector_size = 0` because `128 << 9` is computed in 16-bit arithmetic,
while 128 shifted left by 9 is 65536. -/
theorem sector_size_exponent9_truncates :
    (SectorHeader.from_bytes [0, 0, 0, 9, 0, 0]).map (fun h => h.sector_size) = some 0 ∧
    (0 : Nat) ≠ 128 <<< 9 :=
  ⟨by decide, by decide⟩

/-- C8 (amended): for every size-exponent byte of value at most 8 the
computed sector size is exactly 128 shifted left by the exponent (the
`u16` result does not truncate in that range). -/
theorem sector_size_shift_small_exponent (b0 b1 b2 e b4 b5 : Nat) (he : e ≤ 8) :
    (SectorHeader.from_bytes [b0, b1, b2, e, b4, b5]).map (fun h => h.sector_size) =
      some (128 <<< e) := by
  have h16 : e < 16 := by omega
  have hlt : 128 <<< e < 65536 := by
    rw [Nat.shiftLeft_eq]
    calc 128 * 2 ^ e ≤ 128 * 2 ^ 8 :=
          Nat.mul_le_mul_left _ (Nat.pow_le_pow_right (by norm_num) he)
      _ < 65536 := by norm_num
  simp [SectorHeader.from_bytes, h16, Nat.mod_eq_of_lt hlt]

/-- C8 witness: exponent 1 yields `sector_size = 256`. -/
theorem sector_size_shift_small_exponent_witness :
    (SectorHeader.from_bytes [0, 0, 0, 1, 0, 0]).map (fun h => h.sector_size) = some 256 :=
  (sector_size_shift_small_exponent 0 0 0 1 0 0 (by decide)).trans (by decide)

/-- C9 counterexample: a 33-byte decoded sector does not complete
classification — the loop visits offset 32 and the recognizers slice a
full 32-byte slot there, reading past the end of the sector (an
out-of-range slice panic, modelled as `none`). -/
theorem analyse_raw_sector_incomplete_slot_panics :
    analyse_raw_sector (List.replicate 33 0) = none := by decide

/-- C9 (amended): the classifier completes normally exactly when the
decoded sector's length is a multiple of 32; on any other length it
attempts to classify the trailing incomplete slot and reads past the end
of the sector instead of leaving the remainder unclassified. -/
theorem analyse_raw_sector_completes_iff (data : List Nat) :
    (analyse_raw_sector data).isSome = true ↔ data.length % 32 = 0 := by
  unfold analyse_raw_sector
  rw [Option.isSome_map', mapMo_isSome]
  constructor
  · intro h
    by_contra hr
    have hq : data.length / 32 ∈ List.range ((data.length + 31) / 32) := by
      rw [List.mem_range]; omega
    have h2 := h _ hq
    rw [slotEvents_isSome] at h2
    omega
  · intro h k hk
    rw [List.mem_range] at hk
    rw [slotEvents_isSome]
    omega

theorem readBytes_cons4 (x0 x1 x2 x3 : Nat) (rest : List Nat) :
    readBytes 4 (x0 :: x1 :: x2 :: x3 :: rest) = some ([x0, x1, x2, x3], rest) := by
  unfold readBytes
  rw [if_pos (by simp only [List.length_cons]; omega)]
  rfl

theorem readSector_len (s : List Nat) (r : SectorHeader × List Nat) (s3 : List Nat)
    (h : readSector s = some (r, s3)) : s3.length ≤ s.length := by
  unfold readSector at h
  rcases Option.eq_none_or_eq_some (readBytes 6 s) with h6 | ⟨⟨sect, s1⟩, h6⟩
  · simp only [h6] at h
    exact Option.noConfusion h
  · simp only [h6] at h
    rcases Option.eq_none_or_eq_some (SectorHeader.from_bytes sect) with hsh | ⟨sh, hsh⟩
    · simp only [hsh] at h
      exact Option.noConfusion h
    · simp only [hsh] at h
      rcases Option.eq_none_or_eq_some (readBytes 2 s1) with h2 | ⟨⟨dl, s2⟩, h2⟩
      · simp only [h2] at h
        exact Option.noConfusion h
      · simp only [h2] at h
        rcases Option.eq_none_or_eq_some (readBytes (u16le (dl.getD 0 0) (dl.getD 1 0)) s2)
          with hdb | ⟨⟨db, s3'⟩, hdb⟩
        · simp only [hdb] at h
          exact Option.noConfusion h
        · simp only [hdb] at h
          obtain ⟨-, hs1, hle6⟩ := readBytes_some h6
          obtain ⟨-, hs2, hle2⟩ := readBytes_some h2
          obtain ⟨-, hs3, hledb⟩ := readBytes_some hdb
          have hkey : s3 = s3' := by
            cases db with
            | nil => exact Option.noConfusion h
            | cons m payload =>
              replace h : (match decode_td0 m payload sh.sector_size with
                  | Except.error _ => none
                  | Except.ok decoded =>
                    match analyse_raw_sector decoded with
                    | none => none
                    | some _ => some ((sh, m :: payload), s3')) = some (r, s3) := h
              cases hdec : decode_td0 m payload sh.sector_size with
              | error e =>
                simp only [hdec] at h
                exact Option.noConfusion h
              | ok decoded =>
                simp only [hdec] at h
                rcases Option.eq_none_or_eq_some (analyse_raw_sector decoded) with han | ⟨evs, han⟩
                · simp only [han] at h
                  exact Option.noConfusion h
                · simp only [han] at h
                  rw [Option.some_inj] at h
                  exact (congrArg Prod.snd h).symm
          rw [hkey, hs3, hs2, hs1]
          simp only [List.length_drop]
          omega

theorem readSectors_sound :
    ∀ n : Nat, ∀ s : List Nat, ∀ secs : List (SectorHeader × List Nat), ∀ s2 : List Nat,
      readSectors n s = some (secs, s2) → secs.length = n ∧ s2.length ≤ s.length := by
  intro n
  induction n with
  | zero =>
    intro s secs s2 h
    cases h
    exact ⟨rfl, Nat.le_refl _⟩
  | succ n ih =>
    intro s secs s2 h
    unfold readSectors at h
    rcases Option.eq_none_or_eq_some (readSector s) with hr | ⟨⟨r, s1⟩, hr⟩
    · simp only [hr] at h
      exact Option.noConfusion h
    · simp only [hr] at h
      rcases Option.eq_none_or_eq_some (readSectors n s1) with hrs | ⟨⟨rs, s2'⟩, hrs⟩
      · simp only [hrs] at h
        exact Option.noConfusion h
      · simp only [hrs] at h
        rw [Option.some_inj] at h
        obtain ⟨hl, hle⟩ := ih s1 rs s2' hrs
        have hrlen := readSector_len s r s1 hr
        have h1 : secs = r :: rs := (congrArg Prod.fst h).symm
        have h2 : s2 = s2' := (congrArg Prod.snd h).symm
        subst h1 h2
        exact ⟨by simp [hl], by omega⟩

theorem walkFuel_congr :
    ∀ f g : Nat, ∀ s : List Nat, s.length < f → s.length < g → walkFuel f s = walkFuel g s := by
  intro f
  induction f with
  | zero => intro g s hf hg; omega
  | succ f ih =>
    intro g s hf hg
    cases g with
    | zero => omega
    | succ g' =>
      simp only [walkFuel]
      rcases Option.eq_none_or_eq_some (readBytes 4 s) with h4 | ⟨⟨tb, s1⟩, h4⟩
      · simp only [h4]
      · simp only [h4]
        obtain ⟨-, hs1, hle4⟩ := readBytes_some h4
        rcases Option.eq_none_or_eq_some (TrackHeader.from_bytes tb) with htb | ⟨th, htb⟩
        · simp only [htb]
        · simp only [htb]
          by_cases hterm : th.number_of_sectors = 255
          · simp only [if_pos hterm]
          · simp only [if_neg hterm]
            rcases Option.eq_none_or_eq_some (readSectors th.number_of_sectors s1)
              with hrs | ⟨⟨secs, s2⟩, hrs⟩
            · simp only [hrs]
            · simp only [hrs]
              have hs2 : s2.length ≤ s1.length := (readSectors_sound _ _ _ _ hrs).2
              have hs1len : s1.length = s.length - 4 := by rw [hs1]; simp
              rw [ih g' s2 (by omega) (by omega)]

theorem walkFuel_succ (f : Nat) (s : List Nat) :
    walkFuel (f + 1) s =
      match readBytes 4 s with
      | none => none
      | some (tb, s1) =>
        match TrackHeader.from_bytes tb with
        | none => none
        | some th =>
          if th.number_of_sectors = 255 then some ([], s1)
          else
            match readSectors th.number_of_sectors s1 with
            | none => none
            | some (secs, s2) =>
              match walkFuel f s2 with
              | none => none
              | some (ts, rest) => some ((th, secs) :: ts, rest) := rfl

/-- C7: the track walker terminates exactly on a track header whose
sector-count byte is 255, whatever its cylinder and side bytes, leaving
the rest of the stream untouched; for a sector count `n ≠ 255` it reads
exactly `n` (sector-header, `u16`-length-prefixed payload) records and
only then continues with the next track header; and a successful parse
of `n` sector records always yields an `n`-element record list without
growing the stream. -/
theorem walker_track_semantics :
    (∀ c h b : Nat, ∀ rest : List Nat,
       analyse_track_and_sector_data (255 :: c :: h :: b :: rest) = some ([], rest)) ∧
    (∀ n c h b : Nat, ∀ rest : List Nat, n ≠ 255 →
       analyse_track_and_sector_data (n :: c :: h :: b :: rest) =
         match readSectors n rest with
         | none => none
         | some (secs, s2) =>
           match analyse_track_and_sector_data s2 with
           | none => none
           | some (ts, fin) => some ((TrackHeader.mk n c h, secs) :: ts, fin)) ∧
    (∀ n : Nat, ∀ s : List Nat, ∀ secs : List (SectorHeader × List Nat), ∀ s2 : List Nat,
       readSectors n s = some (secs, s2) → secs.length = n ∧ s2.length ≤ s.length) := by
  refine ⟨?_, ?_, readSectors_sound⟩
  · intro c h b rest
    show walkFuel (rest.length + 1 + 1 + 1 + 1 + 1) (255 :: c :: h :: b :: rest) = some ([], rest)
    rw [walkFuel_succ]
    simp only [readBytes_cons4,
      show TrackHeader.from_bytes [255, c, h, b] = some ⟨255, c, h⟩ from rfl]
    simp
  · intro n c h b rest hn
    show walkFuel (rest.length + 1 + 1 + 1 + 1 + 1) (n :: c :: h :: b :: rest) = _
    rw [walkFuel_succ]
    simp only [readBytes_cons4,
      show TrackHeader.from_bytes [n, c, h, b] = some ⟨n, c, h⟩ from rfl]
    rw [if_neg (show ¬((⟨n, c, h⟩ : TrackHeader).number_of_sectors = 255) from hn)]
    rcases Option.eq_none_or_eq_some (readSectors n rest) with hrs | ⟨⟨secs, s2⟩, hrs⟩
    · simp only [hrs]
    · simp only [hrs]
      have hs2 : s2.length ≤ rest.length := (readSectors_sound n rest secs s2 hrs).2
      rw [walkFuel_congr (rest.length + 1 + 1 + 1 + 1) (s2.length + 1) s2 (by omega) (by omega)]
      rfl

/-- C7 witness: the sentinel header `FF 07 08 09` ends the walk at once;
a header with sector count 1 proceeds to read sector records; parsing
zero sector records succeeds trivially. -/
theorem walker_track_semantics_witness :
    analyse_track_and_sector_data [255, 7, 8, 9] = some ([], []) ∧
    analyse_track_and_sector_data [1, 0, 0, 0] =
      (match readSectors 1 ([] : List Nat) with
       | none => none
       | some (secs, s2) =>
         match analyse_track_and_sector_data s2 with
         | none => none
         | some (ts, fin) => some ((TrackHeader.mk 1 0 0, secs) :: ts, fin)) ∧
    (([] : List (SectorHeader × List Nat)).length = 0 ∧
      ([] : List Nat).length ≤ ([] : List Nat).length) :=
  ⟨walker_track_semantics.1 7 8 9 [],
   walker_track_semantics.2.1 1 0 0 0 [] (by decide),
   walker_track_semantics.2.2 0 [] [] [] rfl⟩

/-- C10: when the stepping byte (offset 7) has its high bit set, the
header parser consumes the 12 image-header bytes and then 10 further
bytes as a comment header even though the signature is not `TD`; only
after all 22 bytes are consumed is the signature checked and the stream
abandoned (`(false, rest)` with `rest` the stream following the consumed
header bytes). -/
theorem header_bytes_consumed_before_signature_check
    (b0 b1 b2 b3 b4 b5 b6 b7 b8 b9 b10 b11 c0 c1 c2 c3 c4 c5 c6 c7 c8 c9 : Nat)
    (rest : List Nat) (hbit : b7.land 0x80 = 0x80) (hsig : ¬(b0 = 0x54 ∧ b1 = 0x44)) :
    (∃ hdrs : TeleDiskHeaders,
       TeleDiskHeaders.from_stream
         (b0 :: b1 :: b2 :: b3 :: b4 :: b5 :: b6 :: b7 :: b8 :: b9 :: b10 :: b11 ::
          c0 :: c1 :: c2 :: c3 :: c4 :: c5 :: c6 :: c7 :: c8 :: c9 :: rest) =
         some (hdrs, rest) ∧ hdrs.comment_header.isSome = true) ∧
    analyze_teledisk_image_format_from_stream
      (b0 :: b1 :: b2 :: b3 :: b4 :: b5 :: b6 :: b7 :: b8 :: b9 :: b10 :: b11 ::
       c0 :: c1 :: c2 :: c3 :: c4 :: c5 :: c6 :: c7 :: c8 :: c9 :: rest) =
      some (false, rest) := by
  have h12 : readBytes 12
      (b0 :: b1 :: b2 :: b3 :: b4 :: b5 :: b6 :: b7 :: b8 :: b9 :: b10 :: b11 ::
       c0 :: c1 :: c2 :: c3 :: c4 :: c5 :: c6 :: c7 :: c8 :: c9 :: rest) =
      some ([b0, b1, b2, b3, b4, b5, b6, b7, b8, b9, b10, b11],
            c0 :: c1 :: c2 :: c3 :: c4 :: c5 :: c6 :: c7 :: c8 :: c9 :: rest) := by
    unfold readBytes
    rw [if_pos (by simp only [List.length_cons]; omega)]
    rfl
  have h10 : readBytes 10 (c0 :: c1 :: c2 :: c3 :: c4 :: c5 :: c6 :: c7 :: c8 :: c9 :: rest) =
      some ([c0, c1, c2, c3, c4, c5, c6, c7, c8, c9], rest) := by
    unfold readBytes
    rw [if_pos (by simp only [List.length_cons]; omega)]
    rfl
  have hfs : TeleDiskHeaders.from_stream
      (b0 :: b1 :: b2 :: b3 :: b4 :: b5 :: b6 :: b7 :: b8 :: b9 :: b10 :: b11 ::
       c0 :: c1 :: c2 :: c3 :: c4 :: c5 :: c6 :: c7 :: c8 :: c9 :: rest) =
      some (⟨⟨[b0, b1], b2, b3, b4, b5, b6, b7, b8, b9, u16le b10 b11⟩,
             some ⟨u16le c0 c1, u16le c2 c3, c4, c5, c6, c7, c8, c9⟩⟩, rest) := by
    unfold TeleDiskHeaders.from_stream
    rw [h12]
    simp only [ImageHeader.from_bytes]
    rw [if_pos (by simp [ImageHeader.has_comment_header, hbit])]
    rw [h10]
    rfl
  refine ⟨⟨_, hfs, rfl⟩, ?_⟩
  unfold analyze_teledisk_image_format_from_stream
  simp only [hfs]
  rw [if_neg (by simp only [ImageHeader.is_valid, beq_iff_eq, List.cons.injEq,
        and_true, decide_eq_true_eq]; tauto)]

/-- C10 witness: a 22-byte stream of zeros except for the stepping byte
`0x80` — not a TD0 signature, yet all 22 header bytes are consumed. -/
theorem header_bytes_consumed_before_signature_check_witness :
    (∃ hdrs : TeleDiskHeaders,
       TeleDiskHeaders.from_stream
         (0 :: 0 :: 0 :: 0 :: 0 :: 0 :: 0 :: 128 :: 0 :: 0 :: 0 :: 0 ::
          0 :: 0 :: 0 :: 0 :: 0 :: 0 :: 0 :: 0 :: 0 :: 0 :: ([] : List Nat)) =
         some (hdrs, []) ∧ hdrs.comment_header.isSome = true) ∧
    analyze_teledisk_image_format_from_stream
      (0 :: 0 :: 0 :: 0 :: 0 :: 0 :: 0 :: 128 :: 0 :: 0 :: 0 :: 0 ::
       0 :: 0 :: 0 :: 0 :: 0 :: 0 :: 0 :: 0 :: 0 :: 0 :: ([] : List Nat)) =
      some (false, []) :=
  header_bytes_consumed_before_signature_check 0 0 0 0 0 0 0 128 0 0 0 0 0 0 0 0 0 0 0 0 0 0 []
    (by decide) (by decide)

end Teledisk
